import Mathlib

/-!
Shallow embedding of the BM25 repository (src/bm25.py and src/BM25.py).

Modelling conventions:
* Python strings are embedded as `List Char` (`Word`); Python lists as `List`,
  Python dicts as association lists in insertion order, Python sets of ints as
  `Finset ℕ`.
* Python floats are idealised as real numbers `ℝ`; `math.log(x, 2)` is
  `Real.logb 2 x`.  Python's float division raises `ZeroDivisionError` on a
  zero divisor; where a divisor can actually be zero the division is embedded
  as an `Option`-valued checked division (`pydivNat`), `none` standing for the
  raised exception.
* The Porter stemmer (`porter.py`, not part of the two source files) is an
  injected capability `stem : Word → Word`, as the spec treats it.  The
  memoisation dict `stemming` maps each key `w` to `stem w` by construction,
  so lookups through the cache are embedded as direct calls of `stem`;
  the cache contents themselves are still threaded where the source returns
  them.
* The stop-word list is a parameter `stop : List Word`.
-/

abbrev Word := List Char

/-- Characters removed by `removing_punctuation_map`:
`string.punctuation[0:12] + string.punctuation[14:]`, i.e. all ASCII
punctuation except `-` (index 12) and `.` (index 13).  Each such character is
translated to a space. -/
def punctuationRemoved : List Char :=
  ['!', '\x22', '#', '$', '%', '&', '\x27', '(', ')', '*', '+', ',',
   '/', ':', ';', '<', '=', '>', '?', '@', '[', '\x5c', ']', '^', '_',
   '\x60', '\x7b', '|', '\x7d', '~']

/-- Embedding of `line.translate(removing_punctuation_map)`. -/
def pyTranslate (l : Word) : Word :=
  l.map (fun c => if c ∈ punctuationRemoved then ' ' else c)

/-- Embedding of `.replace("--", " ")`: replace non-overlapping occurrences of
two consecutive hyphens by a space, scanning left to right. -/
def replaceDD : Word → Word
  | [] => []
  | [c] => [c]
  | c₁ :: c₂ :: t =>
    if c₁ = '-' ∧ c₂ = '-' then ' ' :: replaceDD t
    else c₁ :: replaceDD (c₂ :: t)

/-- Whitespace characters recognised by Python's `str.split()` /
`str.strip()` (ASCII fragment relevant to the corpus). -/
def isPyWs (c : Char) : Bool :=
  c == ' ' || c == '\t' || c == '\n' || c == '\x0d' || c == '\x0b' || c == '\x0c'

/-- Splitter core: cut a character list at every separator (a character
satisfying `p`), keeping empty chunks.  Returns the first chunk and the
remaining chunks. -/
def splitSepAux (p : Char → Bool) : Word → Word × List Word
  | [] => ([], [])
  | c :: t =>
    let r := splitSepAux p t
    if p c then ([], r.1 :: r.2) else (c :: r.1, r.2)

/-- Embedding of Python `s.split(sep)` for a one-character separator:
separator-split keeping empty chunks. -/
def pySplitOn (sep : Char) (l : Word) : List Word :=
  let r := splitSepAux (fun c => c == sep) l
  r.1 :: r.2

/-- Embedding of Python `s.split()` (no argument): split on whitespace runs,
discarding empty chunks. -/
def pySplitWs (l : Word) : List Word :=
  let r := splitSepAux isPyWs l
  (r.1 :: r.2).filter (fun w => !w.isEmpty)

/-- Embedding of Python `s.strip()`. -/
def pyStrip (l : Word) : Word :=
  ((l.dropWhile isPyWs).reverse.dropWhile isPyWs).reverse

/-- Embedding of `term.replace(".", "")`. -/
def removeDots (l : Word) : Word := l.filter (fun c => c != '.')

/-- Embedding of `term.replace("-", "")`. -/
def removeHyphens (l : Word) : Word := l.filter (fun c => c != '-')

/-- Embedding of Python `int(word)` on the token shapes that occur here:
an optional sign followed by a non-empty run of decimal digits.  (Python's
`int` additionally tolerates surrounding whitespace and inner underscores;
tokens at this boundary contain neither, since they are produced by
whitespace-splitting after `_` has been translated to a space.) -/
def pyIntParse (w : Word) : Option ℤ :=
  if w.head? = some '-' then
    (if !w.tail.isEmpty ∧ w.tail.all Char.isDigit
     then some (-(w.tail.foldl (fun a c => 10 * a + (c.toNat - 48)) 0 : ℕ)) else none)
  else if w.head? = some '+' then
    (if !w.tail.isEmpty ∧ w.tail.all Char.isDigit
     then some ((w.tail.foldl (fun a c => 10 * a + (c.toNat - 48)) 0 : ℕ) : ℤ) else none)
  else
    (if !w.isEmpty ∧ w.all Char.isDigit
     then some ((w.foldl (fun a c => 10 * a + (c.toNat - 48)) 0 : ℕ) : ℤ) else none)

/-- Embedding of `is_number` (src/bm25.py lines 61-69): a string is a number
iff `int(word)` succeeds. -/
def is_number (w : Word) : Bool := (pyIntParse w).isSome

/-- Embedding of `is_valid` (src/bm25.py lines 71-78): non-empty, not a stop
word, not an integer literal. -/
def is_valid (stop : List Word) (w : Word) : Bool :=
  !w.isEmpty && !(stop.contains w) && !(is_number w)

/-- ASCII lower-casing of one character, embedding Python `str.lower()`
restricted to the ASCII corpus alphabet. -/
def lowerChar (c : Char) : Char :=
  if c = 'A' then 'a' else if c = 'B' then 'b' else if c = 'C' then 'c'
  else if c = 'D' then 'd' else if c = 'E' then 'e' else if c = 'F' then 'f'
  else if c = 'G' then 'g' else if c = 'H' then 'h' else if c = 'I' then 'i'
  else if c = 'J' then 'j' else if c = 'K' then 'k' else if c = 'L' then 'l'
  else if c = 'M' then 'm' else if c = 'N' then 'n' else if c = 'O' then 'o'
  else if c = 'P' then 'p' else if c = 'Q' then 'q' else if c = 'R' then 'r'
  else if c = 'S' then 's' else if c = 'T' then 't' else if c = 'U' then 'u'
  else if c = 'V' then 'v' else if c = 'W' then 'w' else if c = 'X' then 'x'
  else if c = 'Y' then 'y' else if c = 'Z' then 'z' else c

/-- The upper-case ASCII letters (the only characters `lowerChar` moves). -/
def upperChars : List Char :=
  ['A', 'B', 'C', 'D', 'E', 'F', 'G', 'H', 'I', 'J', 'K', 'L', 'M',
   'N', 'O', 'P', 'Q', 'R', 'S', 'T', 'U', 'V', 'W', 'X', 'Y', 'Z']

/-- Embedding of `str.lower()` on a whole string. -/
def pyLower (l : Word) : Word := l.map lowerChar

/-! ## Record labels (shared by both source files) -/

/-- Label `.I` (record start). -/
def labelID : Word := ['.', 'I']
/-- Label `.T` (title). -/
def labelTitle : Word := ['.', 'T']
/-- Label `.A` (authors). -/
def labelAuthors : Word := ['.', 'A']
/-- Label `.B` (bibliography). -/
def labelBibliography : Word := ['.', 'B']
/-- Label `.W` (body words). -/
def labelWords : Word := ['.', 'W']

/-- Embedding of `LABELS`. -/
def LABELS : List Word := [labelID, labelTitle, labelAuthors, labelBibliography, labelWords]

/-- Embedding of `CONTENTS`. -/
def CONTENTS : List Word := [labelAuthors, labelBibliography, labelWords]

/-! ## Python dict embedding (association lists in insertion order) -/

/-- Lookup in a Python dict embedded as an association list (keys are unique
at every construction site, so first match = the entry). -/
def dictFind {α β : Type} [BEq α] (l : List (α × β)) (k : α) : Option β :=
  (l.find? (fun p => p.1 == k)).map (fun p => p.2)

/-- Embedding of `k in d` for a Python dict. -/
def dictContains {α β : Type} [BEq α] (l : List (α × β)) (k : α) : Bool :=
  (dictFind l k).isSome

/-! ## Query-side normalization (process_single_query, src/bm25.py 186-209;
identical to process_query, src/BM25.py 172-195) -/

/-- Embedding of the query-side `add_new_word` helper: memoised stemming
(the cache always maps `w` to `stem w`, so the lookup is `stem w`), then
append the stem unless it is already present. -/
def add_new_word_query (stem : Word → Word) (query_terms : List Word) (word : Word) :
    List Word :=
  let stemmed_word := stem word
  if query_terms.contains stemmed_word then query_terms else query_terms ++ [stemmed_word]

/-- Per-token body of the `process_single_query` loop: remove full stops,
lower-case, strip hyphens for the compound form, validity-filter, and also
add each valid hyphen-delimited part when the token was hyphenated. -/
def processQueryToken (stem : Word → Word) (stop : List Word)
    (query_terms : List Word) (tok : Word) : List Word :=
  let term := pyLower (removeDots tok)
  let compound := removeHyphens term
  if is_valid stop compound then
    let qt := add_new_word_query stem query_terms compound
    let term_split := pySplitOn '-' term
    if 1 < term_split.length then
      term_split.foldl
        (fun qt el => if is_valid stop el then add_new_word_query stem qt el else qt) qt
    else qt
  else query_terms

/-- Embedding of `process_single_query` (src/bm25.py 186-209). -/
def process_single_query (stem : Word → Word) (stop : List Word) (query : Word) :
    List Word :=
  let q := pyStrip query
  let q := pyTranslate q
  let q := replaceDD q
  (pySplitWs q).foldl (processQueryToken stem stop) []

/-! ## Batch query processing (process_queries, src/bm25.py 211-235) -/

/-- Loop state of `process_queries`.  `query_list` holds the dict
`{0: ..., 1: ...}` as a dense list indexed by query ID; `inWords` embeds the
`section` variable, which in this function is only ever assigned `.W`
(`none`/unset is embedded as `false`: a content line before any `.W` marker
would hit an unbound variable in Python and is skipped here, matching the
spec's tolerant-parsing policy for malformed records). -/
structure QueryState where
  query_list : List (List Word)
  query : List Word
  query_ID : ℕ
  inWords : Bool

/-- One line of the `process_queries` loop. -/
def query_step (stem : Word → Word) (stop : List Word) (s : QueryState) (line : Word) :
    QueryState :=
  let current_section := line.take 2
  if LABELS.contains current_section then
    let s :=
      if current_section == labelID then
        { s with query_list := s.query_list ++ [s.query], query := [],
                 query_ID := s.query_ID + 1 }
      else s
    if current_section == labelWords then { s with inWords := true } else s
  else if s.inWords then
    { s with query :=
        if s.query.isEmpty then process_single_query stem stop line
        else s.query ++ process_single_query stem stop line }
  else s

/-- Embedding of `process_queries` (src/bm25.py 211-235): the returned list
holds the term sequences of query IDs 1, 2, ... in order (the dict has dense
integer keys; entry 0 is deleted at the end). -/
def process_queries (stem : Word → Word) (stop : List Word) (lines : List Word) :
    List (List Word) :=
  let s := lines.foldl (query_step stem stop) ⟨[], [], 0, false⟩
  (s.query_list ++ [s.query]).drop 1

/-! ## Index building (process_documents, src/bm25.py 93-184) -/

/-- The stemming cache: raw token to stem, in insertion order. -/
abbrev Stemming := List (Word × Word)

/-- The inverted index: term to (document ID to occurrence count), both in
insertion order. -/
abbrev TermVectors := List (Word × List (ℕ × ℕ))

/-- Embedding of the document-side `add_new_word` helper (src/bm25.py
96-106): memoise the stem, create the term's posting dict if absent, then
increment or create the posting of `document_ID`. -/
def add_new_word_doc (stem : Word → Word) (document_ID : ℕ)
    (st : Stemming × TermVectors) (word : Word) : Stemming × TermVectors :=
  let stemming := if dictContains st.1 word then st.1 else st.1 ++ [(word, stem word)]
  let stemmed_word := (dictFind stemming word).getD (stem word)
  -- the cache only ever stores `stem w` under `w`, so the default is unreachable
  let tv := st.2
  let tv := if dictContains tv stemmed_word then tv else tv ++ [(stemmed_word, [])]
  let tv := tv.map (fun e =>
    if e.1 == stemmed_word then
      (e.1,
        if dictContains e.2 document_ID then
          e.2.map (fun q => if q.1 == document_ID then (q.1, q.2 + 1) else q)
        else e.2 ++ [(document_ID, 1)])
    else e)
  (stemming, tv)

/-- Per-token body of the `process_documents` content loop (src/bm25.py
138-172): like the query side but with no lower-casing, and counting the
token toward the document length only when the current section is `.W`. -/
def processDocToken (stem : Word → Word) (stop : List Word) (document_ID : ℕ)
    (inWords : Bool) (st : Stemming × TermVectors × ℕ) (tok : Word) :
    Stemming × TermVectors × ℕ :=
  let term := removeDots tok
  let compound := removeHyphens term
  if is_valid stop compound then
    let stv := add_new_word_doc stem document_ID (st.1, st.2.1) compound
    let len := if inWords then st.2.2 + 1 else st.2.2
    let term_split := pySplitOn '-' term
    if 1 < term_split.length then
      let stv := term_split.foldl
        (fun stv el => if is_valid stop el then add_new_word_doc stem document_ID stv el
                       else stv) stv
      (stv.1, stv.2, len)
    else (stv.1, stv.2, len)
  else st

/-- Loop state of `process_documents`.  `document_lengths` holds the dict
with dense keys `0 .. document_ID - 1` as a list (`document_lengths[i]` is
entry `i`); `length` is the running raw term count of the current document
(a Python float that only ever holds whole numbers, so embedded as `ℕ` and
cast under the square root); `average_length` is the running sum of
finalized lengths; `sectionTag` embeds the `section` variable (`section` is
a Lean keyword), `none` standing for the still-unbound state in which a
content line would raise `NameError` in Python and is skipped here. -/
structure BuildState where
  stemming : Stemming
  term_vectors : TermVectors
  document_lengths : List ℝ
  average_length : ℝ
  num_of_documents : ℕ
  document_ID : ℕ
  length : ℕ
  sectionTag : Option Word

/-- One line of the `process_documents` loop (src/bm25.py 117-172).  On a
`.I` marker the previous document's length `sqrt(length)` is stored at key
`document_ID` (= the current size of the dense dict, so an append) and added
to the running average, before the counters advance. -/
noncomputable def doc_step (stem : Word → Word) (stop : List Word) (s : BuildState)
    (line : Word) : BuildState :=
  let current_section := line.take 2
  if LABELS.contains current_section then
    let s :=
      if current_section == labelID then
        { s with
            document_lengths := s.document_lengths ++ [Real.sqrt (s.length : ℝ)],
            average_length := s.average_length + Real.sqrt (s.length : ℝ),
            document_ID := s.document_ID + 1,
            num_of_documents := s.num_of_documents + 1,
            length := 0 }
      else s
    { s with sectionTag := some current_section }
  else
    match s.sectionTag with
    | some sec =>
      if CONTENTS.contains sec then
        let l := replaceDD (pyTranslate line)
        let r := (pySplitWs l).foldl
          (processDocToken stem stop s.document_ID (sec == labelWords))
          (s.stemming, s.term_vectors, s.length)
        { s with stemming := r.1, term_vectors := r.2.1, length := r.2.2 }
      else s
    | none => s

/-- State after the `process_documents` line loop. -/
noncomputable def buildState (stem : Word → Word) (stop : List Word) (lines : List Word) :
    BuildState :=
  lines.foldl (doc_step stem stop) ⟨[], [], [], 0, 0, 0, 0, none⟩

/-- Embedding of `average_length = (document_lengths[document_ID] +
average_length) / num_of_documents` (src/bm25.py 178) after the last
document's length is finalized.  (Lean's total `x / 0 = 0` stands in for the
`ZeroDivisionError` Python would raise on an empty corpus; the theorems below
assume at least one document.) -/
noncomputable def finalAverage (stem : Word → Word) (stop : List Word)
    (lines : List Word) : ℝ :=
  let s := buildState stem stop lines
  (Real.sqrt (s.length : ℝ) + s.average_length) / (s.num_of_documents : ℝ)

/-- Embedding of the normalized document-length vector produced by
`process_documents` (src/bm25.py 174-181): finalize the last document,
delete the synthetic document 0, divide everything by the corpus average.
Entry `i` of the result is the normalized length of document `i + 1`. -/
noncomputable def normalizedLengths (stem : Word → Word) (stop : List Word)
    (lines : List Word) : List ℝ :=
  let s := buildState stem stop lines
  ((s.document_lengths ++ [Real.sqrt (s.length : ℝ)]).drop 1).map
    (fun x => x / finalAverage stem stop lines)

/-- Embedding of `process_documents` (src/bm25.py 93-184): returns the
stemming cache, the inverted index and the normalized length vector. -/
noncomputable def process_documents (stem : Word → Word) (stop : List Word)
    (lines : List Word) : Stemming × TermVectors × List ℝ :=
  let s := buildState stem stop lines
  (s.stemming, s.term_vectors, normalizedLengths stem stop lines)

/-! ## BM25 scoring (bm25_similarities, src/bm25.py 237-260; bm25,
src/BM25.py 197-217) -/

/-- Embedding of the constant `K = 1.0`. -/
noncomputable def K : ℝ := 1

/-- Embedding of the constant `B = 0.75`. -/
noncomputable def B : ℝ := 0.75

/-- Embedding of `MOST_RELEVANT` / `MOST_SIMILAR` (the result cap). -/
def MOST_RELEVANT : ℕ := 15

/-- Embedding of `document_lengths[document_ID]` on the loaded index (an
int-keyed dict; the key is always present for a well-formed index with
document IDs `1 .. N`, so the default is unreachable at the use sites). -/
noncomputable def dictGetD (l : List (ℕ × ℝ)) (k : ℕ) : ℝ := (dictFind l k).getD 0

/-- Embedding of the inner similarity accumulation of both scoring functions
(src/bm25.py 245-251, src/BM25.py 205-211): for each query term that is in
the index and whose posting dict contains the document, add the BM25
contribution `f * (1 + K) / (f + K * ((1 - B) + B * normLen)) * idf` with
`idf = log2((N - n_i + 0.5) / (n_i + 0.5))`.  (src/BM25.py runs the same
loop over the string-keyed JSON form; the keys are embedded as the integers
they denote.) -/
noncomputable def similarity (term_vectors : TermVectors)
    (document_lengths : List (ℕ × ℝ)) (nums_of_documents : ℕ)
    (query : List Word) (document_ID : ℕ) : ℝ :=
  query.foldl (fun s term =>
    match dictFind term_vectors term with
    | none => s
    | some postings =>
      match dictFind postings document_ID with
      | none => s
      | some frequency =>
        let n_i : ℕ := postings.length
        let idf : ℝ :=
          Real.logb 2 (((nums_of_documents : ℝ) - (n_i : ℝ) + 0.5) / ((n_i : ℝ) + 0.5))
        s + (frequency : ℝ) * (1 + K) /
              ((frequency : ℝ) + K * ((1 - B) + B * dictGetD document_lengths document_ID))
            * idf) 0

/-- Stable insertion step of Python's `sorted(..., key = lambda x : x[1],
reverse = True)`: the inserted element came earlier in the input than every
element of the sorted tail, so it goes in front of the first element whose
score is less than or equal to its own. -/
noncomputable def insertDesc (a : ℕ × ℝ) : List (ℕ × ℝ) → List (ℕ × ℝ)
  | [] => [a]
  | b :: t => if b.2 ≤ a.2 then a :: b :: t else b :: insertDesc a t

/-- Embedding of Python's stable descending sort by score. -/
noncomputable def sortDesc : List (ℕ × ℝ) → List (ℕ × ℝ)
  | [] => []
  | a :: t => insertDesc a (sortDesc t)

/-- Embedding of `bm25_similarities` (src/bm25.py 237-260): score documents
`1 .. N` in order, keep only strictly positive scores, sort descending
(stable), and truncate to `MOST_RELEVANT` entries when longer. -/
noncomputable def bm25_similarities (term_vectors : TermVectors)
    (document_lengths : List (ℕ × ℝ)) (nums_of_documents : ℕ)
    (query : List Word) : List (ℕ × ℝ) :=
  let similarities := (List.range' 1 nums_of_documents).filterMap (fun document_ID =>
    let s := similarity term_vectors document_lengths nums_of_documents query document_ID
    if 0 < s then some (document_ID, s) else none)
  let sorted := sortDesc similarities
  if MOST_RELEVANT < sorted.length then sorted.take MOST_RELEVANT else sorted

/-- Embedding of `bm25` (src/BM25.py 197-217): every document `1 .. N` is
appended with its (possibly zero or negative) similarity, then the list is
sorted descending (stable) and the first `MOST_SIMILAR` entries are
returned. -/
noncomputable def bm25 (term_vectors : TermVectors)
    (document_lengths : List (ℕ × ℝ)) (nums_of_documents : ℕ)
    (query : List Word) : List (ℕ × ℝ) :=
  (sortDesc ((List.range' 1 nums_of_documents).map (fun document_ID =>
    (document_ID,
     similarity term_vectors document_lengths nums_of_documents query document_ID)))).take
    MOST_RELEVANT

/-! ## Index persistence (src/bm25.py 432-442 and the JSON boundary).

The JSON interchange form cannot carry integer dict keys, so document IDs
are written as decimal strings (`json.dump` stringifies int keys) and parsed
back with `int(...)` on load; `bm25.py` applies the conversion to the
document-length map and to every per-term posting map. -/

/-- Little-endian decimal digits of a natural number. -/
def natDigitsLE (n : ℕ) : List ℕ :=
  if h : n < 10 then [n] else n % 10 :: natDigitsLE (n / 10)
decreasing_by exact Nat.div_lt_self (by omega) (by omega)

/-- Modelled from the spec: the on-disk string form of an integer document
ID (`json.dump` writes int dict keys as their decimal representations). -/
def natToDec (n : ℕ) : Word := ((natDigitsLE n).reverse).map Nat.digitChar

/-- Embedding of `int(ID)` applied to a loaded string key (document IDs are
non-negative, hence the `Int.toNat`). -/
def decToNat (w : Word) : Option ℕ := (pyIntParse w).map Int.toNat

/-- The triple persisted in `index.json`: stemming cache, inverted index and
document-length map (src/bm25.py 184, 460). -/
structure IndexSnapshot where
  stemming : Stemming
  term_vectors : TermVectors
  document_lengths : List (ℕ × ℝ)

/-- Modelled from the spec: string-keyed on-disk form of a posting map. -/
def serialize_postings (l : List (ℕ × ℕ)) : List (Word × ℕ) :=
  l.map (fun p => (natToDec p.1, p.2))

/-- Option-valued traversal of a list (the embedding of running a Python
comprehension whose body may raise): the first failure aborts the whole
construction. -/
def mapMOpt {α β : Type} (f : α → Option β) : List α → Option (List β)
  | [] => some []
  | a :: t =>
    match f a with
    | none => none
    | some b => (mapMOpt f t).map (fun bs => b :: bs)

/-- Embedding of the per-term key conversion
`{int(ID) : appearance_times for ID, appearance_times in vector.items()}`
(src/bm25.py 441); `none` embeds the `ValueError` `int` would raise on a
non-numeric key. -/
def deserialize_postings (l : List (Word × ℕ)) : Option (List (ℕ × ℕ)) :=
  mapMOpt (fun p => (decToNat p.1).map (fun k => (k, p.2))) l

/-- Modelled from the spec: string-keyed on-disk form of the length map. -/
def serialize_lengths (l : List (ℕ × ℝ)) : List (Word × ℝ) :=
  l.map (fun p => (natToDec p.1, p.2))

/-- Embedding of `{int(ID) : length for ID, length in
document_lengths.items()}` (src/bm25.py 439). -/
def deserialize_lengths (l : List (Word × ℝ)) : Option (List (ℕ × ℝ)) :=
  mapMOpt (fun p => (decToNat p.1).map (fun k => (k, p.2))) l

/-- Modelled from the spec: the on-disk snapshot with every document-ID key
stringified, at both nesting levels. -/
def serialize_index (idx : IndexSnapshot) :
    Stemming × List (Word × List (Word × ℕ)) × List (Word × ℝ) :=
  (idx.stemming, idx.term_vectors.map (fun e => (e.1, serialize_postings e.2)),
   serialize_lengths idx.document_lengths)

/-- Embedding of the load path (src/bm25.py 435-441): parse every string key
back to an integer, at both nesting levels. -/
def deserialize_index (s : Stemming × List (Word × List (Word × ℕ)) × List (Word × ℝ)) :
    Option IndexSnapshot := do
  let tv ← mapMOpt (fun e => (deserialize_postings e.2).map (fun p => (e.1, p))) s.2.1
  let dl ← deserialize_lengths s.2.2
  pure ⟨s.1, tv, dl⟩

/-! ## Evaluation engine (src/bm25.py 277-413, src/BM25.py 262-322).

The two dicts `relevance_scores` (judgments per query, sorted ascending by
grade at load: src/bm25.py 291-294) and `query_results` (ranked lists per
query) share their key set in an evaluation run; they are embedded as one
list of per-query records in key order. -/

/-- Embedding of `RELEVANCE_SCORE_THRESHOLD = 4`. -/
def RELEVANCE_SCORE_THRESHOLD : ℤ := 4

/-- Embedding of `RELEVANCE_SCORE_FIX = 5`. -/
def RELEVANCE_SCORE_FIX : ℤ := 5

/-- One evaluated query: `judgments` is `relevance_scores[query_ID]` (the
(document ID, grade) pairs, already sorted ascending by grade as
`load_relevance_scores` leaves them), `results` is
`query_results[query_ID]` (the (document ID, rank) pairs, ranks `1, 2, ...`
in retrieved order). -/
structure EvalQuery where
  judgments : List (ℕ × ℤ)
  results : List (ℕ × ℕ)
deriving DecidableEq

/-- Embedding of `make_relevance_set` (src/bm25.py 310-317): judged
documents whose grade is at most the threshold. -/
def make_relevance_set (judgments : List (ℕ × ℤ)) : Finset ℕ :=
  ((judgments.filter (fun p => p.2 ≤ RELEVANCE_SCORE_THRESHOLD)).map Prod.fst).toFinset

/-- Embedding of `make_retrieval_set` (src/bm25.py 319-323). -/
def make_retrieval_set (results : List (ℕ × ℕ)) : Finset ℕ :=
  (results.map Prod.fst).toFinset

/-- Embedding of Python's `a / n` for an `int` divisor `n`: a
`ZeroDivisionError` (here `none`) when `n` is zero. -/
noncomputable def pydivNat (a : ℝ) (n : ℕ) : Option ℝ :=
  if n = 0 then none else some (a / (n : ℝ))

/-- Embedding of Python's `a / b` on floats: `ZeroDivisionError` (`none`)
when the divisor is zero. -/
noncomputable def pydivR (a b : ℝ) : Option ℝ :=
  if b = 0 then none else some (a / b)

/-- Per-query body of the `recall` loop (src/bm25.py 341-348): the number
of relevant documents retrieved, divided — unguarded — by the size of the
relevant set. -/
noncomputable def recall_query (q : EvalQuery) : Option ℝ :=
  let relevance_set := make_relevance_set q.judgments
  let retrieval_set := make_retrieval_set q.results
  let appearance_times := (relevance_set.filter (fun d => d ∈ retrieval_set)).card
  pydivNat (appearance_times : ℝ) relevance_set.card

/-- Embedding of `recall` (src/bm25.py 339-351; `recall` is a Mathlib
command name, hence the suffix): the per-query values summed and averaged
over the queries; a `ZeroDivisionError` in any iteration aborts the whole
computation, exactly as the Python loop would. -/
noncomputable def recall_eval (qs : List EvalQuery) : Option ℝ := do
  let total ← qs.foldlM (fun acc q => (recall_query q).map (fun v => acc + v)) (0 : ℝ)
  pydivNat total qs.length

/-- Per-query body of the `mean_average_precision` loop (src/bm25.py
367-375): walk the ranked list keeping a relevant-hit counter
`appearance_times`; at each relevant rank add `appearance_times / rank` to
`current_map`; divide the sum by the relevant-set size.  (Ranks are positive
by construction of `make_query_results`, so the rank division is embedded as
total real division.) -/
noncomputable def average_precision_query (q : EvalQuery) : Option ℝ :=
  let relevance_set := make_relevance_set q.judgments
  let r := q.results.foldl (fun (st : ℕ × ℝ) pair =>
    if pair.1 ∈ relevance_set then
      (st.1 + 1, st.2 + ((st.1 + 1 : ℕ) : ℝ) / (pair.2 : ℝ))
    else st) (0, (0 : ℝ))
  pydivNat r.2 relevance_set.card

/-- Embedding of `mean_average_precision` (src/bm25.py 365-377): per-query
values summed and averaged over the queries. -/
noncomputable def mean_average_precision (qs : List EvalQuery) : Option ℝ := do
  let total ← qs.foldlM
    (fun acc q => (average_precision_query q).map (fun v => acc + v)) (0 : ℝ)
  pydivNat total qs.length

/-- Embedding of the `map_set` built by `mean_average_precision` in
src/BM25.py 295-297: ALL judged documents, with no threshold filter. -/
def map_set_B (judgments : List (ℕ × ℤ)) : Finset ℕ :=
  (judgments.map Prod.fst).toFinset

/-- Embedding of `mean_average_precision(n)` (src/BM25.py 290-304): the
accumulation `current_map += appearance_times / entry[1]` sits OUTSIDE the
relevance test, so a term is added at every rank; and the per-query sum is
divided by the constant `n`, not by the relevant-set size. -/
noncomputable def average_precision_query_B (n : ℕ) (q : EvalQuery) : Option ℝ :=
  let map_set := map_set_B q.judgments
  let r := q.results.foldl (fun (st : ℕ × ℝ) entry =>
    let appearance_times := if entry.1 ∈ map_set then st.1 + 1 else st.1
    (appearance_times, st.2 + (appearance_times : ℝ) / (entry.2 : ℝ))) (0, (0 : ℝ))
  pydivNat r.2 n

/-- Embedding of the outer loop of `mean_average_precision(n)`
(src/BM25.py 290-304). -/
noncomputable def mean_average_precision_B (n : ℕ) (qs : List EvalQuery) : Option ℝ := do
  let total ← qs.foldlM
    (fun acc q => (average_precision_query_B n q).map (fun v => acc + v)) (0 : ℝ)
  pydivNat total qs.length

/-- Modelled from the spec (claim C5): the per-query average-precision walk —
each time a retrieved document is relevant, add (relevant hits so far,
including this one) divided by its rank. -/
noncomputable def averagePrecisionWalk (rel : Finset ℕ) :
    List (ℕ × ℕ) → ℕ → ℝ
  | [], _ => 0
  | p :: t, hits =>
    if p.1 ∈ rel then
      ((hits + 1 : ℕ) : ℝ) / (p.2 : ℝ) + averagePrecisionWalk rel t (hits + 1)
    else averagePrecisionWalk rel t hits

/-- Modelled from the spec (claim C5): per-query walk sum divided by the
relevant-set size, averaged arithmetically over the evaluated queries. -/
noncomputable def mapSpec (qs : List EvalQuery) : ℝ :=
  (qs.map (fun q =>
    averagePrecisionWalk (make_relevance_set q.judgments) q.results 0 /
      ((make_relevance_set q.judgments).card : ℝ))).sum / (qs.length : ℝ)

/-! ## NDCG (ndcg_at_n, src/bm25.py 379-413; NDCG_at_n, src/BM25.py 320-322) -/

/-- Embedding of `dict(score_list)` lookup: later pairs overwrite earlier
ones; the default is unreachable because every key looked up comes from the
same list. -/
def dictOf (l : List (ℕ × ℤ)) (k : ℕ) : ℤ :=
  ((l.reverse.find? (fun p => p.1 == k)).map (fun p => p.2)).getD 0

/-- Embedding of the DCG loop `dcg.append(gain_vector[i] / math.log(i + 1,
2) + dcg[-1])` from index `i` on, with `prev` the last entry so far. -/
noncomputable def dcg_aux (prev : ℝ) (i : ℕ) : List ℝ → List ℝ
  | [] => []
  | g :: t =>
    let cur := g / Real.logb 2 ((i : ℝ) + 1) + prev
    cur :: dcg_aux cur (i + 1) t

/-- Embedding of the running DCG vector: `dcg = [gain_vector[0]]`, then the
recursion above for `i = 1, ...`. -/
noncomputable def dcg_list : List ℝ → List ℝ
  | [] => []
  | g :: t => g :: dcg_aux g 1 t

/-- Embedding of the per-query body of `ndcg_at_n` (src/bm25.py 382-413):
gains are `RELEVANCE_SCORE_FIX - grade` at retrieved positions whose
document is in the relevant set and 0 elsewhere; the ideal gain vector runs
over ALL judged pairs of `score_list` (the grade-ascending judgment list),
with no threshold filter; both DCG vectors use the same recursion; the NDCG
vector is the elementwise ratio, truncated to `n` entries when longer.
`none` embeds the `IndexError` on an empty gain vector (`gain_vector[0]` /
`ideal_gain_vector[0]`) and the `ZeroDivisionError` on a zero ideal-DCG
entry. -/
noncomputable def ndcg_query (n : ℕ) (q : EvalQuery) : Option (List ℝ) := do
  let score_list := q.judgments
  let relevance_set := make_relevance_set q.judgments
  let gain_vector : List ℝ := q.results.map (fun pair =>
    if pair.1 ∈ relevance_set then
      ((RELEVANCE_SCORE_FIX - dictOf score_list pair.1 : ℤ) : ℝ)
    else 0)
  let ideal_gain_vector : List ℝ := score_list.map (fun pair =>
    ((RELEVANCE_SCORE_FIX - dictOf score_list pair.1 : ℤ) : ℝ))
  if gain_vector.isEmpty ∨ ideal_gain_vector.isEmpty then none
  else do
    let dcg := dcg_list gain_vector
    let ideal_dcg := dcg_list ideal_gain_vector
    let ndcg ← mapMOpt (fun pair => pydivR pair.1 pair.2) (dcg.zip ideal_dcg)
    pure (if n < ndcg.length then ndcg.take n else ndcg)

/-- Stable insertion step of `sorted(..., key = lambda x : x[1])` on
judgment pairs (ascending by grade). -/
def insertAscJudg (a : ℕ × ℤ) : List (ℕ × ℤ) → List (ℕ × ℤ)
  | [] => [a]
  | b :: t => if a.2 ≤ b.2 then a :: b :: t else b :: insertAscJudg a t

/-- Embedding of Python's stable ascending sort by grade (the sort
`load_relevance_scores` applies, src/bm25.py 291-294). -/
def sortAscJudg : List (ℕ × ℤ) → List (ℕ × ℤ)
  | [] => []
  | a :: t => insertAscJudg a (sortAscJudg t)

/-- Modelled from the spec (claim C7): identical to `ndcg_query` except that
the ideal gain vector is built from the relevant set's judged documents —
only those passing the relevance threshold — sorted by grade ascending. -/
noncomputable def ndcg_spec (n : ℕ) (q : EvalQuery) : Option (List ℝ) := do
  let score_list := q.judgments
  let relevance_set := make_relevance_set q.judgments
  let gain_vector : List ℝ := q.results.map (fun pair =>
    if pair.1 ∈ relevance_set then
      ((RELEVANCE_SCORE_FIX - dictOf score_list pair.1 : ℤ) : ℝ)
    else 0)
  let ideal_gain_vector : List ℝ :=
    (sortAscJudg (score_list.filter (fun p => p.2 ≤ RELEVANCE_SCORE_THRESHOLD))).map
      (fun pair => ((RELEVANCE_SCORE_FIX - pair.2 : ℤ) : ℝ))
  if gain_vector.isEmpty ∨ ideal_gain_vector.isEmpty then none
  else do
    let dcg := dcg_list gain_vector
    let ideal_dcg := dcg_list ideal_gain_vector
    let ndcg ← mapMOpt (fun pair => pydivR pair.1 pair.2) (dcg.zip ideal_dcg)
    pure (if n < ndcg.length then ndcg.take n else ndcg)

/-- Embedding of `NDCG_at_n` (src/BM25.py 320-322): a stub that returns the
constant `0.0` regardless of its argument. -/
noncomputable def NDCG_at_n_B (n : ℕ) : ℝ := 0

/-! ## Properties named in the claims -/

/-- Ranked-result ordering: scores weakly descending, and whenever two
entries' scores tie, the earlier entry has the smaller document ID (the
original enumeration order, preserved by a stable sort). -/
def ScoreDescTieAsc (p q : ℕ × ℝ) : Prop := q.2 ≤ p.2 ∧ (p.2 ≤ q.2 → p.1 < q.1)

/-- An entry of a ranked result list with a strictly positive score whose
document contains at least one query term. -/
def PositiveMatchedEntry (term_vectors : TermVectors) (query : List Word)
    (p : ℕ × ℝ) : Prop :=
  0 < p.2 ∧ ∃ t ∈ query, ∃ postings,
    dictFind term_vectors t = some postings ∧ dictContains postings p.1 = true

/-! # Theorems.

Helper lemmas first, then one theorem per claim (witnesses and
counterexamples next to their claims). -/

theorem mem_insertDesc {a c : ℕ × ℝ} {l : List (ℕ × ℝ)} :
    c ∈ insertDesc a l ↔ c = a ∨ c ∈ l := by
  induction l with
  | nil => simp [insertDesc]
  | cons b t ih =>
    by_cases h : b.2 ≤ a.2
    · simp [insertDesc, h]
    · simp only [insertDesc, if_neg h, List.mem_cons, ih]
      tauto

theorem mem_sortDesc {c : ℕ × ℝ} {l : List (ℕ × ℝ)} :
    c ∈ sortDesc l ↔ c ∈ l := by
  induction l with
  | nil => simp [sortDesc]
  | cons a t ih => simp [sortDesc, mem_insertDesc, ih]

theorem length_insertDesc (a : ℕ × ℝ) (l : List (ℕ × ℝ)) :
    (insertDesc a l).length = l.length + 1 := by
  induction l with
  | nil => simp [insertDesc]
  | cons b t ih =>
    by_cases h : b.2 ≤ a.2
    · simp [insertDesc, h]
    · simp [insertDesc, h, ih]

theorem length_sortDesc (l : List (ℕ × ℝ)) : (sortDesc l).length = l.length := by
  induction l with
  | nil => rfl
  | cons a t ih => simp [sortDesc, length_insertDesc, ih]

theorem pairwise_insertDesc {a : ℕ × ℝ} {l : List (ℕ × ℝ)}
    (hl : l.Pairwise ScoreDescTieAsc) (ha : ∀ b ∈ l, a.1 < b.1) :
    (insertDesc a l).Pairwise ScoreDescTieAsc := by
  induction l with
  | nil => simp [insertDesc]
  | cons b t ih =>
    rcases List.pairwise_cons.mp hl with ⟨hbt, ht⟩
    by_cases h : b.2 ≤ a.2
    · rw [insertDesc, if_pos h]
      refine List.pairwise_cons.mpr ⟨?_, hl⟩
      intro c hc
      rcases List.mem_cons.mp hc with hcb | hct
      · subst hcb
        exact ⟨h, fun _ => ha c (List.mem_cons_self _ _)⟩
      · rcases hbt c hct with ⟨hcb, _⟩
        exact ⟨le_trans hcb h, fun _ => ha c (List.mem_cons_of_mem b hct)⟩
    · rw [insertDesc, if_neg h]
      push_neg at h
      refine List.pairwise_cons.mpr ⟨?_, ih ht (fun c hc => ha c (List.mem_cons_of_mem b hc))⟩
      intro c hc
      rcases mem_insertDesc.mp hc with rfl | hct
      · exact ⟨le_of_lt h, fun hba => absurd (lt_of_lt_of_le h hba) (lt_irrefl _)⟩
      · exact hbt c hct

theorem pairwise_sortDesc {l : List (ℕ × ℝ)}
    (h : l.Pairwise (fun p q => p.1 < q.1)) :
    (sortDesc l).Pairwise ScoreDescTieAsc := by
  induction l with
  | nil => simp [sortDesc]
  | cons a t ih =>
    rcases List.pairwise_cons.mp h with ⟨hat, ht⟩
    exact pairwise_insertDesc (ih ht) (fun b hb => hat b (mem_sortDesc.mp hb))

theorem pairwise_filterMap_fst {α : Type} {f : ℕ → Option (ℕ × α)}
    (hf : ∀ d p, f d = some p → p.1 = d) :
    ∀ {l : List ℕ}, l.Pairwise (· < ·) →
      (l.filterMap f).Pairwise (fun p q => p.1 < q.1) := by
  intro l
  induction l with
  | nil => intro; simp
  | cons a t ih =>
    intro h
    rcases List.pairwise_cons.mp h with ⟨hat, ht⟩
    rw [List.filterMap_cons]
    cases hfa : f a with
    | none => exact ih ht
    | some p =>
      refine List.pairwise_cons.mpr ⟨?_, ih ht⟩
      intro q hq
      rcases List.mem_filterMap.mp hq with ⟨b, hb, hfb⟩
      rw [hf a p hfa, hf b q hfb]
      exact hat b hb

/-- C1: for every query and every index, both scoring engines —
`bm25_similarities` (src/bm25.py) and `bm25` (src/BM25.py) — return a result
list that is sorted by score in descending order with equal-score entries in
ascending document-ID order (the original enumeration order, preserved by the
stable sort), and that has at most `MOST_RELEVANT = 15` entries. -/
theorem C1_ranked_results_sorted_capped (term_vectors : TermVectors)
    (document_lengths : List (ℕ × ℝ)) (nums_of_documents : ℕ) (query : List Word) :
    ((bm25_similarities term_vectors document_lengths nums_of_documents query).Pairwise
        ScoreDescTieAsc ∧
      (bm25_similarities term_vectors document_lengths nums_of_documents query).length ≤
        MOST_RELEVANT) ∧
    ((bm25 term_vectors document_lengths nums_of_documents query).Pairwise
        ScoreDescTieAsc ∧
      (bm25 term_vectors document_lengths nums_of_documents query).length ≤
        MOST_RELEVANT) := by
  constructor
  · rw [bm25_similarities]
    have hcand : ((List.range' 1 nums_of_documents).filterMap (fun document_ID =>
        let s := similarity term_vectors document_lengths nums_of_documents query document_ID
        if 0 < s then some (document_ID, s) else none)).Pairwise
          (fun p q : ℕ × ℝ => p.1 < q.1) := by
      refine pairwise_filterMap_fst ?_ (List.pairwise_lt_range' 1 nums_of_documents)
      intro d p hp
      simp only at hp
      split at hp
      · exact (Option.some_inj.mp hp) ▸ rfl
      · exact absurd hp (by simp)
    have hs := pairwise_sortDesc hcand
    split_ifs with hlen
    · exact ⟨hs.sublist (List.take_sublist _ _),
        by simpa using Nat.min_le_left MOST_RELEVANT _⟩
    · exact ⟨hs, by omega⟩
  · rw [bm25]
    have hcand : ((List.range' 1 nums_of_documents).map (fun document_ID =>
        (document_ID,
         similarity term_vectors document_lengths nums_of_documents query document_ID))).Pairwise
          (fun p q : ℕ × ℝ => p.1 < q.1) := by
      rw [List.pairwise_map]
      exact List.pairwise_lt_range' 1 nums_of_documents
    have hs := pairwise_sortDesc hcand
    exact ⟨hs.sublist (List.take_sublist _ _),
      by simpa using Nat.min_le_left MOST_RELEVANT _⟩

/-- C9: evaluation of the code at the failing input.  A query record whose
`.W` body spans two lines, each containing the word "how", yields the term
sequence ["how", "how", "now"]: `process_queries` concatenates the per-line
results of `process_single_query` (src/bm25.py 228-232), so the
duplicate-suppressing membership test only acts within a single line and a
word repeated on different lines of one query contributes twice — contrary
to the claim that a word repeated anywhere in the query contributes exactly
one entry (src/BM25.py even flags this: `# TODO: Repetitive words!!!!!!`). -/
theorem C9_duplicate_stems_failing_input :
    process_queries (fun w => w) []
        [['.', 'I', ' ', '1'], ['.', 'W'],
         ['h', 'o', 'w', ' ', 'h', 'o', 'w'],
         ['h', 'o', 'w', ' ', 'n', 'o', 'w']] =
      [[['h', 'o', 'w'], ['h', 'o', 'w'], ['n', 'o', 'w']]] ∧
    ¬ (∀ q ∈ process_queries (fun w => w) []
        [['.', 'I', ' ', '1'], ['.', 'W'],
         ['h', 'o', 'w', ' ', 'h', 'o', 'w'],
         ['h', 'o', 'w', ' ', 'n', 'o', 'w']], q.Nodup) := by
  constructor
  · decide
  · decide

/-- C2: the scoring engine uses exactly
`idf = log2((N - n_t + 0.5) / (n_t + 0.5))` with `n_t` the posting-list
size; a term absent from the index contributes exactly zero to every
document's score and raises no error; and a negative idf (which arises
whenever `N < 2 * n_t`) is used unchanged — the resulting per-term
contribution really is negative, never clamped to zero. -/
theorem C2_idf_formula (term_vectors : TermVectors) (document_lengths : List (ℕ × ℝ))
    (nums_of_documents : ℕ) (t : Word) (document_ID : ℕ) :
    (dictFind term_vectors t = none →
      ∀ q₁ q₂, similarity term_vectors document_lengths nums_of_documents
          (q₁ ++ t :: q₂) document_ID =
        similarity term_vectors document_lengths nums_of_documents
          (q₁ ++ q₂) document_ID) ∧
    (∀ postings frequency, dictFind term_vectors t = some postings →
      dictFind postings document_ID = some frequency →
      similarity term_vectors document_lengths nums_of_documents [t] document_ID =
        (frequency : ℝ) * (1 + K) /
            ((frequency : ℝ) +
              K * ((1 - B) + B * dictGetD document_lengths document_ID)) *
          Real.logb 2 (((nums_of_documents : ℝ) - (postings.length : ℝ) + 0.5) /
            ((postings.length : ℝ) + 0.5))) ∧
    (∀ postings frequency, dictFind term_vectors t = some postings →
      dictFind postings document_ID = some frequency →
      postings.length ≤ nums_of_documents →
      nums_of_documents < 2 * postings.length →
      1 ≤ frequency → 0 ≤ dictGetD document_lengths document_ID →
      similarity term_vectors document_lengths nums_of_documents [t] document_ID < 0) := by
  have formula : ∀ postings frequency, dictFind term_vectors t = some postings →
      dictFind postings document_ID = some frequency →
      similarity term_vectors document_lengths nums_of_documents [t] document_ID =
        (frequency : ℝ) * (1 + K) /
            ((frequency : ℝ) +
              K * ((1 - B) + B * dictGetD document_lengths document_ID)) *
          Real.logb 2 (((nums_of_documents : ℝ) - (postings.length : ℝ) + 0.5) /
            ((postings.length : ℝ) + 0.5)) := by
    intro postings frequency hp hf
    simp only [similarity, List.foldl_cons, List.foldl_nil, hp, hf, zero_add]
  refine ⟨?_, formula, ?_⟩
  · intro hnone q₁ q₂
    simp only [similarity, List.foldl_append, List.foldl_cons, hnone]
  · intro postings frequency hp hf hle hlt hfreq hlen
    rw [formula postings frequency hp hf]
    have hfpos : (0 : ℝ) < (frequency : ℝ) := by exact_mod_cast Nat.lt_of_lt_of_le Nat.zero_lt_one hfreq
    have hnpos : (0 : ℝ) < (postings.length : ℝ) + 0.5 := by positivity
    have hnum : (0 : ℝ) < (frequency : ℝ) * (1 + K) := by
      simp only [K]; nlinarith
    have hden : (0 : ℝ) < (frequency : ℝ) +
        K * ((1 - B) + B * dictGetD document_lengths document_ID) := by
      simp only [K, B]; nlinarith
    apply mul_neg_of_pos_of_neg (div_pos hnum hden)
    apply Real.logb_neg one_lt_two
    · apply div_pos _ hnpos
      have : (postings.length : ℝ) ≤ (nums_of_documents : ℝ) := by exact_mod_cast hle
      linarith
    · rw [div_lt_one hnpos]
      have : (nums_of_documents : ℝ) < 2 * (postings.length : ℝ) := by exact_mod_cast hlt
      linarith

/-- C2 witness: the spec's own concrete scenario — 3 documents, a term with
posting list `{1: 2, 3: 1}` so `n_t = 2` and `idf = log2(0.6) < 0`; the
hypotheses of `C2_idf_formula` hold and document 1's score for the
single-term query is strictly negative (so the negative idf was not
clamped). -/
theorem C2_idf_formula_witness :
    dictFind [((['s'] : Word), [(1, 2), (3, 1)])] (['s'] : Word) = some [(1, 2), (3, 1)] ∧
    dictFind [(1, 2), (3, 1)] 1 = some 2 ∧
    ([(1, 2), (3, 1)] : List (ℕ × ℕ)).length ≤ 3 ∧
    3 < 2 * ([(1, 2), (3, 1)] : List (ℕ × ℕ)).length ∧
    (0 : ℝ) ≤ dictGetD [(1, (1 : ℝ)), (2, 1), (3, 1)] 1 ∧
    similarity [((['s'] : Word), [(1, 2), (3, 1)])] [(1, (1 : ℝ)), (2, 1), (3, 1)] 3
      [['s']] 1 < 0 := by
  have h5 : (0 : ℝ) ≤ dictGetD [(1, (1 : ℝ)), (2, 1), (3, 1)] 1 := by
    simp [dictGetD, dictFind]
  exact ⟨by decide, by decide, by decide, by decide, h5,
    (C2_idf_formula [((['s'] : Word), [(1, 2), (3, 1)])] [(1, (1 : ℝ)), (2, 1), (3, 1)]
        3 ['s'] 1).2.2 [(1, 2), (3, 1)] 2 (by decide) (by decide) (by decide) (by decide)
      (by decide) h5⟩

theorem similarity_eq_zero_of_no_match (term_vectors : TermVectors)
    (document_lengths : List (ℕ × ℝ)) (nums_of_documents : ℕ)
    (query : List Word) (document_ID : ℕ)
    (h : ∀ t ∈ query, ∀ postings, dictFind term_vectors t = some postings →
      dictFind postings document_ID = none) :
    similarity term_vectors document_lengths nums_of_documents query document_ID = 0 := by
  suffices hgen : ∀ (q : List Word), (∀ t ∈ q, ∀ postings,
      dictFind term_vectors t = some postings → dictFind postings document_ID = none) →
      ∀ (s : ℝ), q.foldl (fun s term =>
        match dictFind term_vectors term with
        | none => s
        | some postings =>
          match dictFind postings document_ID with
          | none => s
          | some frequency =>
            let n_i : ℕ := postings.length
            let idf : ℝ := Real.logb 2
              (((nums_of_documents : ℝ) - (n_i : ℝ) + 0.5) / ((n_i : ℝ) + 0.5))
            s + (frequency : ℝ) * (1 + K) /
                ((frequency : ℝ) +
                  K * ((1 - B) + B * dictGetD document_lengths document_ID)) * idf) s = s by
    rw [similarity]
    exact hgen query h 0
  intro q hq
  induction q with
  | nil => intro s; rfl
  | cons t q ih =>
    intro s
    rw [List.foldl_cons]
    cases hf : dictFind term_vectors t with
    | none =>
      simp only [hf]
      exact ih (fun t' ht' => hq t' (List.mem_cons_of_mem t ht')) s
    | some postings =>
      simp only [hf, hq t (List.mem_cons_self t q) postings hf]
      exact ih (fun t' ht' => hq t' (List.mem_cons_of_mem t ht')) s

/-- C3 counterexample: in the `bm25` variant (src/BM25.py), a document that
contains no query term is NOT excluded from the ranked result list.  With a
one-document index whose only term is "a" and the query ["z"] (a term absent
from the index), document 1 matches no query term, yet the returned list is
`[(1, 0)]` — the zero-scored, term-free document is reported.  This refutes
the claim as stated for the cited `bm25` symbol. -/
theorem C3_counterexample :
    dictFind [((['a'] : Word), [(1, 1)])] (['z'] : Word) = none ∧
    bm25 [((['a'] : Word), [(1, 1)])] [(1, (1 : ℝ))] 1 [['z']] = [(1, 0)] := by
  constructor
  · decide
  · rfl

/-- C3 (amended): under the default policy (`includeNonPositive = false`,
implemented by `bm25_similarities` in src/bm25.py via `if similarity > 0.0`),
every entry of the ranked result list has a strictly positive score and its
document contains at least one query term — equivalently, documents matching
no query term and documents with nonpositive aggregate score are excluded.
The `bm25` variant of src/BM25.py implements `includeNonPositive = true` and
retains such documents (see `C3_counterexample`). -/
theorem C3_default_policy_exclusions (term_vectors : TermVectors)
    (document_lengths : List (ℕ × ℝ)) (nums_of_documents : ℕ) (query : List Word) :
    (bm25_similarities term_vectors document_lengths nums_of_documents query).Forall
      (PositiveMatchedEntry term_vectors query) := by
  rw [List.forall_iff_forall_mem]
  intro p hp
  rw [bm25_similarities] at hp
  have hp' : p ∈ sortDesc ((List.range' 1 nums_of_documents).filterMap (fun document_ID =>
      let s := similarity term_vectors document_lengths nums_of_documents query document_ID
      if 0 < s then some (document_ID, s) else none)) := by
    revert hp
    split_ifs with h
    · exact fun hp => List.mem_of_mem_take hp
    · exact id
  rcases List.mem_filterMap.mp (mem_sortDesc.mp hp') with ⟨d, _, hd⟩
  simp only at hd
  split at hd
  case isTrue hpos =>
    rcases Option.some_inj.mp hd with rfl
    refine ⟨hpos, ?_⟩
    by_contra hno
    push_neg at hno
    have hzero : similarity term_vectors document_lengths nums_of_documents query d = 0 := by
      apply similarity_eq_zero_of_no_match
      intro t ht postings hpost
      rcases Option.eq_none_or_eq_some (dictFind postings d) with hn | ⟨f, hf⟩
      · exact hn
      · exact absurd (by rw [dictContains, hf]; rfl) (hno t ht postings hpost)
    rw [hzero] at hpos
    exact absurd hpos (lt_irrefl 0)
  case isFalse => exact absurd hd (by simp)

theorem natDigitsLE_ne_nil (n : ℕ) : natDigitsLE n ≠ [] := by
  rw [natDigitsLE]
  split_ifs <;> simp

theorem natDigitsLE_lt_ten (n : ℕ) : ∀ d ∈ natDigitsLE n, d < 10 := by
  induction n using Nat.strong_induction_on with
  | _ n ih =>
    rw [natDigitsLE]
    split_ifs with h
    · intro d hd
      simp only [List.mem_singleton] at hd
      omega
    · intro d hd
      rcases List.mem_cons.mp hd with rfl | hd'
      · exact Nat.mod_lt n (by omega)
      · exact ih (n / 10) (Nat.div_lt_self (by omega) (by omega)) d hd'

theorem natDigitsLE_val (n : ℕ) :
    (natDigitsLE n).foldr (fun d r => d + 10 * r) 0 = n := by
  induction n using Nat.strong_induction_on with
  | _ n ih =>
    rw [natDigitsLE]
    split_ifs with h
    · simp
    · rw [List.foldr_cons, ih (n / 10) (Nat.div_lt_self (by omega) (by omega))]
      omega

theorem digitChar_isDigit {d : ℕ} (h : d < 10) : (Nat.digitChar d).isDigit = true := by
  interval_cases d <;> decide

theorem digitChar_toNat {d : ℕ} (h : d < 10) : (Nat.digitChar d).toNat - 48 = d := by
  interval_cases d <;> decide

theorem foldl_digitChars (ds : List ℕ) (h : ∀ d ∈ ds, d < 10) :
    ∀ a : ℕ, (ds.map Nat.digitChar).foldl (fun a c => 10 * a + (c.toNat - 48)) a =
      ds.foldl (fun a d => 10 * a + d) a := by
  induction ds with
  | nil => intro a; rfl
  | cons d t ih =>
    intro a
    rw [List.map_cons, List.foldl_cons, List.foldl_cons,
      digitChar_toNat (h d (List.mem_cons_self d t))]
    exact ih (fun x hx => h x (List.mem_cons_of_mem d hx)) _

theorem foldl_reverse_val (ds : List ℕ) :
    ∀ a : ℕ, ds.reverse.foldl (fun a d => 10 * a + d) a =
      a * 10 ^ ds.length + ds.foldr (fun d r => d + 10 * r) 0 := by
  induction ds with
  | nil => intro a; simp
  | cons d t ih =>
    intro a
    rw [List.reverse_cons, List.foldl_append, ih, List.foldl_cons, List.foldl_nil,
      List.foldr_cons, List.length_cons, pow_succ]
    ring

theorem pyIntParse_all_digits (w : Word) (hne : w ≠ [])
    (hall : w.all Char.isDigit = true) :
    pyIntParse w = some ((w.foldl (fun a c => 10 * a + (c.toNat - 48)) 0 : ℕ) : ℤ) := by
  have hhead : ∀ c, w.head? = some c → c.isDigit = true := by
    intro c hc
    exact List.all_eq_true.mp hall c (List.mem_of_mem_head? hc)
  rw [pyIntParse, if_neg, if_neg, if_pos ⟨by simpa using hne, hall⟩]
  · intro hplus
    have := hhead '+' hplus
    exact absurd this (by decide)
  · intro hminus
    have := hhead '-' hminus
    exact absurd this (by decide)

theorem decToNat_natToDec (n : ℕ) : decToNat (natToDec n) = some n := by
  have hlt : ∀ d ∈ (natDigitsLE n).reverse, d < 10 := by
    intro d hd
    exact natDigitsLE_lt_ten n d (List.mem_reverse.mp hd)
  have hne : ((natDigitsLE n).reverse.map Nat.digitChar) ≠ [] := by
    simp [natDigitsLE_ne_nil n]
  have hall : ((natDigitsLE n).reverse.map Nat.digitChar).all Char.isDigit = true := by
    refine List.all_eq_true.mpr (fun c hc => ?_)
    rcases List.mem_map.mp hc with ⟨d, hd, rfl⟩
    exact digitChar_isDigit (hlt d hd)
  rw [decToNat, natToDec, pyIntParse_all_digits _ hne hall, Option.map_some',
    Int.toNat_natCast, foldl_digitChars _ hlt, foldl_reverse_val, natDigitsLE_val]
  simp

theorem deserialize_postings_roundtrip (l : List (ℕ × ℕ)) :
    deserialize_postings (serialize_postings l) = some l := by
  induction l with
  | nil => rfl
  | cons p t ih =>
    simp only [serialize_postings, deserialize_postings, List.map_cons, mapMOpt,
      decToNat_natToDec, Option.map_some'] at *
    simp [ih]

theorem deserialize_lengths_roundtrip (l : List (ℕ × ℝ)) :
    deserialize_lengths (serialize_lengths l) = some l := by
  induction l with
  | nil => rfl
  | cons p t ih =>
    simp only [serialize_lengths, deserialize_lengths, List.map_cons, mapMOpt,
      decToNat_natToDec, Option.map_some'] at *
    simp [ih]

theorem deserialize_serialize_index (idx : IndexSnapshot) :
    deserialize_index (serialize_index idx) = some idx := by
  have htv : mapMOpt (fun e => (deserialize_postings e.2).map (fun p => (e.1, p)))
      (idx.term_vectors.map (fun e => (e.1, serialize_postings e.2))) =
      some idx.term_vectors := by
    induction idx.term_vectors with
    | nil => rfl
    | cons e t ih =>
      simp only [List.map_cons, mapMOpt, deserialize_postings_roundtrip,
        Option.map_some']
      simp [ih]
  rw [serialize_index, deserialize_index]
  simp [htv, deserialize_lengths_roundtrip]

/-- C8: serializing a built index — document IDs written as decimal string
keys at both nesting levels — and deserializing it with `int(...)` applied to
every nested key restores the index exactly, so the scoring engine produces
identical scores for any fixed query on the deserialized snapshot and on the
never-serialized one. -/
theorem C8_roundtrip_scores (idx : IndexSnapshot) (query : List Word) :
    ∃ idx', deserialize_index (serialize_index idx) = some idx' ∧
      bm25_similarities idx'.term_vectors idx'.document_lengths
          idx'.document_lengths.length query =
        bm25_similarities idx.term_vectors idx.document_lengths
          idx.document_lengths.length query :=
  ⟨idx, deserialize_serialize_index idx, rfl⟩

theorem foldlM_add_none {α : Type} (g : α → Option ℝ) (P : α → Prop)
    (hP : ∀ x, P x → g x = none) :
    ∀ (l : List α) (acc : ℝ), (∃ x ∈ l, P x) →
      l.foldlM (fun acc x => (g x).map (fun v => acc + v)) acc = none := by
  intro l
  induction l with
  | nil =>
    intro acc h
    rcases h with ⟨x, hx, _⟩
    cases hx
  | cons a t ih =>
    intro acc h
    rw [List.foldlM_cons]
    by_cases ha : P a
    · rw [hP a ha]
      rfl
    · cases hga : g a with
      | none => rfl
      | some w =>
        have hex : ∃ x ∈ t, P x := by
          rcases h with ⟨x, hx, hPx⟩
          rcases List.mem_cons.mp hx with hxa | hxt
          · exact absurd (hxa ▸ hPx) ha
          · exact ⟨x, hxt, hPx⟩
        simp only [Option.map_some', Option.some_bind]
        exact ih (acc + w) hex

theorem foldlM_add_some {α : Type} (g : α → Option ℝ) (v : α → ℝ) :
    ∀ (l : List α), (∀ x ∈ l, g x = some (v x)) →
      ∀ acc : ℝ, l.foldlM (fun acc x => (g x).map (fun w => acc + w)) acc =
        some (acc + (l.map v).sum) := by
  intro l
  induction l with
  | nil => intro _ acc; simp
  | cons a t ih =>
    intro h acc
    rw [List.foldlM_cons, h a (List.mem_cons_self a t)]
    have := ih (fun x hx => h x (List.mem_cons_of_mem a hx)) (acc + v a)
    simp only [Option.map_some']
    show t.foldlM _ (acc + v a) = _
    rw [this, List.map_cons, List.sum_cons]
    ring_nf

/-- C6 counterexample: a judged query whose only judgment has grade 5
(above the threshold 4) has an empty relevant set; `recall` then divides by
zero — the embedded computation returns `none`, standing for Python's
uncaught `ZeroDivisionError` — instead of excluding the query from the
average as the claim requires. -/
theorem C6_counterexample :
    make_relevance_set [(7, 5)] = ∅ ∧
    recall_eval [⟨[(7, 5)], [(1, 1)]⟩] = none := by
  refine ⟨by decide, ?_⟩
  have h : recall_query ⟨[(7, 5)], [(1, 1)]⟩ = none := by
    rw [recall_query]
    have he : make_relevance_set [(7, 5)] = ∅ := by decide
    simp [he, pydivNat]
  rw [recall_eval]
  rw [List.foldlM_cons, h]
  rfl

/-- C6 (amended): the recall computation divides by the relevant-set size
with no guard: whenever some judged query has an empty relevant set, the
whole evaluation aborts with an uncaught `ZeroDivisionError` (embedded:
`recall_eval` returns `none`).  No query is excluded from the average and no
exclusion is recorded — the claimed explicit-exclusion behavior does not
exist in the code. -/
theorem C6_recall_unguarded_divzero (qs : List EvalQuery)
    (h : ∃ q ∈ qs, make_relevance_set q.judgments = ∅) :
    recall_eval qs = none := by
  rw [recall_eval]
  have hnone := foldlM_add_none recall_query
    (fun q => make_relevance_set q.judgments = ∅)
    (fun q hq => by rw [recall_query]; simp [hq, pydivNat]) qs 0 h
  rw [hnone]
  rfl

/-- C6 witness: the amended theorem applied at a concrete evaluation run
with one grade-5-only query. -/
theorem C6_recall_unguarded_divzero_witness :
    (∃ q ∈ [(⟨[(9, 5)], [(2, 1)]⟩ : EvalQuery)],
      make_relevance_set q.judgments = ∅) ∧
    recall_eval [(⟨[(9, 5)], [(2, 1)]⟩ : EvalQuery)] = none := by
  have hx : ∃ q ∈ [(⟨[(9, 5)], [(2, 1)]⟩ : EvalQuery)],
      make_relevance_set q.judgments = ∅ :=
    ⟨⟨[(9, 5)], [(2, 1)]⟩, List.mem_cons_self _ _, by decide⟩
  exact ⟨hx, C6_recall_unguarded_divzero _ hx⟩

theorem map_fold_walk (rel : Finset ℕ) (results : List (ℕ × ℕ)) :
    ∀ (hits : ℕ) (acc : ℝ),
      results.foldl (fun (st : ℕ × ℝ) pair =>
        if pair.1 ∈ rel then (st.1 + 1, st.2 + ((st.1 + 1 : ℕ) : ℝ) / (pair.2 : ℝ))
        else st) (hits, acc) =
      (hits + (results.filter (fun p => p.1 ∈ rel)).length,
       acc + averagePrecisionWalk rel results hits) := by
  induction results with
  | nil => intro hits acc; simp [averagePrecisionWalk]
  | cons p t ih =>
    intro hits acc
    rw [List.foldl_cons]
    by_cases hp : p.1 ∈ rel
    · rw [if_pos hp, ih]
      rw [averagePrecisionWalk, if_pos hp, List.filter_cons, if_pos (by simpa using hp)]
      refine Prod.ext ?_ ?_
      · simp only [List.length_cons]
        omega
      · simp only
        ring
    · rw [if_neg hp, ih]
      rw [averagePrecisionWalk, if_neg hp, List.filter_cons, if_neg (by simpa using hp)]

theorem average_precision_query_eq (q : EvalQuery)
    (h : make_relevance_set q.judgments ≠ ∅) :
    average_precision_query q =
      some (averagePrecisionWalk (make_relevance_set q.judgments) q.results 0 /
        ((make_relevance_set q.judgments).card : ℝ)) := by
  rw [average_precision_query]
  simp only [map_fold_walk]
  rw [pydivNat, if_neg (by simpa [Finset.card_eq_zero] using h)]
  rw [zero_add]

/-- C5 counterexample: the `mean_average_precision` of src/BM25.py refutes
the claim.  One query, judgments `[(1, 1)]`, ranked list `[(1, 1), (2, 2)]`:
the claimed walk gives `(1/1) / |Rel| = 1`, but the BM25.py code adds
`appearance_times / rank` at EVERY rank (its accumulation sits outside the
relevance test) and divides by the fixed constant `n = 10`, yielding
`(1 + 1/2) / 10 = 3/20 ≠ 1`. -/
theorem C5_counterexample :
    mean_average_precision_B 10 [⟨[(1, 1)], [(1, 1), (2, 2)]⟩] = some (3 / 20) ∧
    mapSpec [⟨[(1, 1)], [(1, 1), (2, 2)]⟩] = 1 ∧
    ((3 : ℝ) / 20) ≠ 1 := by
  refine ⟨?_, ?_, by norm_num⟩
  · have h1 : (1 : ℕ) ∈ map_set_B [(1, 1)] := by decide
    have h2 : (2 : ℕ) ∉ map_set_B [(1, 1)] := by decide
    simp only [mean_average_precision_B, average_precision_query_B, List.foldlM_cons,
      List.foldlM_nil, List.foldl_cons, List.foldl_nil, if_pos h1, if_neg h2, pydivNat,
      Option.map_some', Option.some_bind]
    norm_num
  · have h1 : (1 : ℕ) ∈ make_relevance_set [(1, 1)] := by decide
    have h2 : (2 : ℕ) ∉ make_relevance_set [(1, 1)] := by decide
    have hcard : (make_relevance_set [(1, 1)]).card = 1 := by decide
    rw [mapSpec]
    simp only [List.map_cons, List.map_nil, List.sum_cons, List.sum_nil, List.length_cons,
      List.length_nil]
    rw [averagePrecisionWalk, if_pos h1, averagePrecisionWalk, if_neg h2,
      averagePrecisionWalk, hcard]
    norm_num

/-- C5 (amended): the `mean_average_precision` of src/bm25.py computes MAP
exactly as the claim states — walking each ranked list in order, adding
(relevant hits so far, including this one) / rank only at relevant ranks,
dividing the per-query sum by that query's relevant-set size, and averaging
over the evaluated queries; the src/BM25.py variant instead adds a term at
every rank and divides by the fixed constant `n` (see `C5_counterexample`).
Hypotheses: every relevant set is non-empty and there is at least one query
(otherwise the Python code raises `ZeroDivisionError`). -/
theorem C5_map_matches_walk (qs : List EvalQuery)
    (h1 : ∀ q ∈ qs, make_relevance_set q.judgments ≠ ∅) (h2 : qs ≠ []) :
    mean_average_precision qs = some (mapSpec qs) := by
  rw [mean_average_precision, mapSpec]
  rw [foldlM_add_some average_precision_query
    (fun q => averagePrecisionWalk (make_relevance_set q.judgments) q.results 0 /
      ((make_relevance_set q.judgments).card : ℝ))
    qs (fun q hq => average_precision_query_eq q (h1 q hq)) 0]
  have hbind : ∀ (x : ℝ) (k : ℝ → Option ℝ), (some x >>= k) = k x := fun x k => rfl
  rw [hbind]
  rw [pydivNat, if_neg (by simpa [List.length_eq_zero] using h2), zero_add]

/-- C5 witness: the amended theorem applied to a concrete one-query run. -/
theorem C5_map_matches_walk_witness :
    (∀ q ∈ [(⟨[(3, 2)], [(3, 1)]⟩ : EvalQuery)],
      make_relevance_set q.judgments ≠ ∅) ∧
    ([(⟨[(3, 2)], [(3, 1)]⟩ : EvalQuery)] : List EvalQuery) ≠ [] ∧
    mean_average_precision [(⟨[(3, 2)], [(3, 1)]⟩ : EvalQuery)] =
      some (mapSpec [(⟨[(3, 2)], [(3, 1)]⟩ : EvalQuery)]) := by
  refine ⟨by decide, by decide, C5_map_matches_walk _ (by decide) (by decide)⟩

theorem insertAscJudg_of_le (a : ℕ × ℤ) (l : List (ℕ × ℤ))
    (h : ∀ b ∈ l, a.2 ≤ b.2) : insertAscJudg a l = a :: l := by
  cases l with
  | nil => rfl
  | cons b t => rw [insertAscJudg, if_pos (h b (List.mem_cons_self b t))]

theorem sortAscJudg_of_sorted (l : List (ℕ × ℤ))
    (h : l.Pairwise (fun a b => a.2 ≤ b.2)) : sortAscJudg l = l := by
  induction l with
  | nil => rfl
  | cons a t ih =>
    rcases List.pairwise_cons.mp h with ⟨hat, ht⟩
    rw [sortAscJudg, ih ht, insertAscJudg_of_le a t hat]

theorem find?_reverse_of_nodup (l : List (ℕ × ℤ)) (p : ℕ × ℤ)
    (hnodup : (l.map Prod.fst).Nodup) (hp : p ∈ l) :
    l.reverse.find? (fun e => e.1 == p.1) = some p := by
  induction l with
  | nil => cases hp
  | cons a t ih =>
    rw [List.reverse_cons, List.find?_append]
    rw [List.map_cons] at hnodup
    rcases List.nodup_cons.mp hnodup with ⟨ha, ht⟩
    rcases List.mem_cons.mp hp with hpa | hpt
    · subst hpa
      have hnone : t.reverse.find? (fun e => e.1 == p.1) = none := by
        refine List.find?_eq_none.mpr (fun x hx => ?_)
        have hxt : x ∈ t := List.mem_reverse.mp hx
        have : x.1 ≠ p.1 := by
          intro hcontra
          exact ha (hcontra ▸ List.mem_map_of_mem Prod.fst hxt)
        simpa using this
      rw [hnone]
      simp [List.find?_cons]
    · rw [ih ht hpt]
      rfl

theorem dictOf_self (l : List (ℕ × ℤ)) (hnodup : (l.map Prod.fst).Nodup) :
    ∀ p ∈ l, dictOf l p.1 = p.2 := by
  intro p hp
  rw [dictOf, find?_reverse_of_nodup l p hnodup hp]
  rfl

/-- C7 counterexample: judged pairs `[(6, 1), (5, 5)]` (doc 6 grade 1, doc 5
grade 5 — the latter fails the threshold 4), retrieved list
`[(6, 1), (5, 2)]`.  The claim specifies an ideal gain vector built only
from judged documents passing the relevance threshold — here `[4]`, giving
the NDCG sequence `[1]` — but `ndcg_at_n` (src/bm25.py 398-400) builds the
ideal vector from ALL judged pairs, here `[4, 0]`, and reports `[1, 1]`. -/
theorem C7_counterexample :
    ndcg_query 10 ⟨[(6, 1), (5, 5)], [(6, 1), (5, 2)]⟩ = some [1, 1] ∧
    ndcg_spec 10 ⟨[(6, 1), (5, 5)], [(6, 1), (5, 2)]⟩ = some [1] := by
  have h6 : (6 : ℕ) ∈ make_relevance_set [(6, 1), (5, 5)] := by decide
  have h5 : (5 : ℕ) ∉ make_relevance_set [(6, 1), (5, 5)] := by decide
  have hd6 : dictOf [(6, 1), (5, 5)] 6 = 1 := by decide
  have hd5 : dictOf [(6, 1), (5, 5)] 5 = 5 := by decide
  constructor
  · simp only [ndcg_query, List.map_cons, List.map_nil, if_pos h6, if_neg h5, hd6, hd5,
      RELEVANCE_SCORE_FIX, dcg_list, dcg_aux, List.isEmpty_cons, mapMOpt, pydivR,
      List.zip_cons_cons]
    norm_num
  · simp only [ndcg_spec, List.map_cons, List.map_nil, if_pos h6, if_neg h5, hd6,
      RELEVANCE_SCORE_FIX, RELEVANCE_SCORE_THRESHOLD, List.filter_cons, List.filter_nil,
      sortAscJudg, insertAscJudg, dcg_list, dcg_aux, List.isEmpty_cons, mapMOpt, pydivR,
      List.zip_cons_cons, List.zip_nil_right]
    norm_num

/-- C7 (amended): `ndcg_at_n` of src/bm25.py computes NDCG@N as the claim
states — gains `RELEVANCE_SCORE_FIX - grade`, retrieved-order gain vector,
the `DCG[1] = gain[1]`, `DCG[i] = gain[i]/log2(i) + DCG[i-1]` recursion for
both vectors, elementwise ratio, truncation at N — except that its ideal
gain vector is built from ALL judged documents of the query (in the
grade-ascending order the loader produced), not only those passing the
relevance threshold; the two agree exactly when every judged grade passes
the threshold.  (The `NDCG_at_n` of src/BM25.py is a stub returning the
constant 0.0 and computes nothing.)  Hypotheses: the judgment list is
grade-ascending (as `load_relevance_scores` leaves it), has no duplicate
document IDs (guaranteed by the relevance file), and every grade passes the
threshold. -/
theorem C7_ndcg_matches_spec_under_threshold (n : ℕ) (q : EvalQuery)
    (hsorted : q.judgments.Pairwise (fun a b => a.2 ≤ b.2))
    (hnodup : (q.judgments.map Prod.fst).Nodup)
    (hall : ∀ p ∈ q.judgments, p.2 ≤ RELEVANCE_SCORE_THRESHOLD) :
    ndcg_query n q = ndcg_spec n q := by
  have hfilter : q.judgments.filter (fun p => p.2 ≤ RELEVANCE_SCORE_THRESHOLD) =
      q.judgments :=
    List.filter_eq_self.mpr (fun p hp => by simpa using hall p hp)
  have hmap : q.judgments.map
      (fun pair => ((RELEVANCE_SCORE_FIX - dictOf q.judgments pair.1 : ℤ) : ℝ)) =
      q.judgments.map (fun pair => ((RELEVANCE_SCORE_FIX - pair.2 : ℤ) : ℝ)) :=
    List.map_congr_left (fun p hp => by rw [dictOf_self q.judgments hnodup p hp])
  simp only [ndcg_query, ndcg_spec, hfilter, sortAscJudg_of_sorted q.judgments hsorted,
    hmap]

/-- C7 witness: the amended theorem applied to a concrete query whose only
judged grade passes the threshold. -/
theorem C7_ndcg_matches_spec_witness :
    (([((1 : ℕ), (1 : ℤ))] : List (ℕ × ℤ)).Pairwise (fun a b => a.2 ≤ b.2) ∧
     (([((1 : ℕ), (1 : ℤ))] : List (ℕ × ℤ)).map Prod.fst).Nodup ∧
     (∀ p ∈ ([((1 : ℕ), (1 : ℤ))] : List (ℕ × ℤ)),
        p.2 ≤ RELEVANCE_SCORE_THRESHOLD)) ∧
    ndcg_query 10 ⟨[(1, 1)], [(1, 1)]⟩ = ndcg_spec 10 ⟨[(1, 1)], [(1, 1)]⟩ :=
  ⟨⟨by decide, by decide, by decide⟩,
   C7_ndcg_matches_spec_under_threshold 10 ⟨[(1, 1)], [(1, 1)]⟩ (by decide) (by decide)
     (by decide)⟩

theorem sum_map_div (l : List ℝ) (a : ℝ) :
    (l.map (fun y => y / a)).sum = l.sum / a := by
  induction l with
  | nil => simp
  | cons x t ih => simp [ih, add_div]

theorem doc_step_invariant (stem : Word → Word) (stop : List Word) (s : BuildState)
    (line : Word)
    (h1 : s.document_lengths.length = s.document_ID)
    (h2 : s.average_length = s.document_lengths.sum)
    (h3 : s.num_of_documents = s.document_ID)
    (h4 : s.document_lengths.head? = some 0)
    (h5 : 1 ≤ s.document_ID) :
    (doc_step stem stop s line).document_lengths.length =
        (doc_step stem stop s line).document_ID ∧
      (doc_step stem stop s line).average_length =
        (doc_step stem stop s line).document_lengths.sum ∧
      (doc_step stem stop s line).num_of_documents =
        (doc_step stem stop s line).document_ID ∧
      (doc_step stem stop s line).document_lengths.head? = some 0 ∧
      1 ≤ (doc_step stem stop s line).document_ID := by
  have hne : s.document_lengths ≠ [] := by
    intro hcontra
    rw [hcontra] at h1
    simp at h1
    omega
  rw [doc_step]
  by_cases hlab : LABELS.contains (line.take 2)
  · rw [if_pos hlab]
    by_cases hid : (line.take 2) == labelID
    · simp only [if_pos hid]
      refine ⟨?_, ?_, ?_, ?_, ?_⟩
      · simp [h1]
      · simp [h2, List.sum_append]
      · simp [h3]
      · simp only [List.head?_append, h4]
        rfl
      · simp
    · simp only [if_neg hid]
      exact ⟨h1, h2, h3, h4, h5⟩
  · rw [if_neg hlab]
    cases hsec : s.sectionTag with
    | none => exact ⟨h1, h2, h3, h4, h5⟩
    | some sec =>
      by_cases hc : CONTENTS.contains sec
      · simp only [if_pos hc]
        exact ⟨h1, h2, h3, h4, h5⟩
      · simp only [if_neg hc]
        exact ⟨h1, h2, h3, h4, h5⟩

theorem buildState_invariant (stem : Word → Word) (stop : List Word)
    (l₀ : Word) (rest : List Word) (h0 : l₀.take 2 = labelID) :
    (buildState stem stop (l₀ :: rest)).document_lengths.length =
        (buildState stem stop (l₀ :: rest)).document_ID ∧
      (buildState stem stop (l₀ :: rest)).average_length =
        (buildState stem stop (l₀ :: rest)).document_lengths.sum ∧
      (buildState stem stop (l₀ :: rest)).num_of_documents =
        (buildState stem stop (l₀ :: rest)).document_ID ∧
      (buildState stem stop (l₀ :: rest)).document_lengths.head? = some 0 ∧
      1 ≤ (buildState stem stop (l₀ :: rest)).document_ID := by
  rw [buildState, List.foldl_cons]
  have hstart : (doc_step stem stop ⟨[], [], [], 0, 0, 0, 0, none⟩ l₀) =
      ⟨[], [], [Real.sqrt (0 : ℕ)], 0 + Real.sqrt (0 : ℕ), 1, 1, 0,
        some (l₀.take 2)⟩ := by
    rw [doc_step]
    rw [if_pos (by rw [h0]; decide), if_pos (by rw [h0]; decide)]
    rfl
  rw [hstart]
  have hbase1 : ([Real.sqrt ((0 : ℕ) : ℝ)] : List ℝ).length = 1 := by simp
  generalize hs : (⟨[], [], [Real.sqrt ((0 : ℕ) : ℝ)], 0 + Real.sqrt ((0 : ℕ) : ℝ), 1, 1, 0,
      some (l₀.take 2)⟩ : BuildState) = s₁
  have hI1 : s₁.document_lengths.length = s₁.document_ID := by rw [← hs]; simp
  have hI2 : s₁.average_length = s₁.document_lengths.sum := by rw [← hs]; simp
  have hI3 : s₁.num_of_documents = s₁.document_ID := by rw [← hs]
  have hI4 : s₁.document_lengths.head? = some 0 := by rw [← hs]; simp
  have hI5 : 1 ≤ s₁.document_ID := by rw [← hs]
  clear hs hstart
  induction rest generalizing s₁ with
  | nil => exact ⟨hI1, hI2, hI3, hI4, hI5⟩
  | cons l rest ih =>
    rw [List.foldl_cons]
    obtain ⟨j1, j2, j3, j4, j5⟩ :=
      doc_step_invariant stem stop s₁ l hI1 hI2 hI3 hI4 hI5
    exact ih _ j1 j2 j3 j4 j5

/-- C4: for every corpus whose first line is a `.I` record marker and whose
final corpus average is positive (i.e. some document has a non-zero body
length — otherwise Python raises `ZeroDivisionError`), the arithmetic mean of
the normalized document lengths produced by `process_documents` equals
exactly 1: the builder's running average includes the explicitly finalized
last document and the synthetic document 0 (whose length is `sqrt 0 = 0` and
which is deleted before normalization), divides by the number of real
documents, and then divides every per-document square-rooted length by that
average.  The second conjunct checks that the normalized vector has exactly
`num_of_documents` entries. -/
theorem C4_mean_normalized_length_one (stem : Word → Word) (stop : List Word)
    (l₀ : Word) (rest : List Word) (h0 : l₀.take 2 = labelID)
    (hpos : 0 < finalAverage stem stop (l₀ :: rest)) :
    (normalizedLengths stem stop (l₀ :: rest)).sum /
      ((normalizedLengths stem stop (l₀ :: rest)).length : ℝ) = 1 ∧
    (normalizedLengths stem stop (l₀ :: rest)).length =
      (buildState stem stop (l₀ :: rest)).num_of_documents := by
  obtain ⟨h1, h2, h3, h4, h5⟩ := buildState_invariant stem stop l₀ rest h0
  set s := buildState stem stop (l₀ :: rest) with hs
  simp only [normalizedLengths, finalAverage] at hpos ⊢
  rw [← hs] at hpos ⊢
  cases hL : s.document_lengths with
  | nil =>
    rw [hL] at h1
    simp at h1
    omega
  | cons hd L' =>
    have hhd : hd = 0 := by
      rw [hL] at h4
      simpa using h4
    subst hhd
    rw [hL] at h2
    rw [List.sum_cons, zero_add] at h2
    rw [hL] at h1
    rw [List.length_cons] at h1
    have hdrop : (((0 : ℝ) :: L' ++ [Real.sqrt (s.length : ℝ)]).drop 1) =
        L' ++ [Real.sqrt (s.length : ℝ)] := rfl
    rw [hdrop, sum_map_div, List.sum_append, List.sum_singleton, List.length_map,
      List.length_append, List.length_singleton]
    have hdnz : ((s.document_ID : ℕ) : ℝ) ≠ 0 := by
      simp only [ne_eq, Nat.cast_eq_zero]
      omega
    have hA : (Real.sqrt (s.length : ℝ) + s.average_length) / (s.num_of_documents : ℝ) =
        (L'.sum + Real.sqrt (s.length : ℝ)) / (s.document_ID : ℝ) := by
      rw [h2, h3, add_comm]
    rw [hA] at hpos ⊢
    have hSpos : 0 < L'.sum + Real.sqrt (s.length : ℝ) := by
      have hdpos : (0 : ℝ) < (s.document_ID : ℝ) := by
        simp only [Nat.cast_pos]
        omega
      have := mul_pos hpos hdpos
      rwa [div_mul_cancel₀ _ hdnz] at this
    constructor
    · have hcast : ((L'.length + 1 : ℕ) : ℝ) = (s.document_ID : ℝ) := by
        exact_mod_cast h1
      push_cast
      push_cast at hcast
      rw [hcast]
      field_simp
    · simp only [List.length_map, List.length_append, List.length_singleton] at *
      omega

/-- C4 witness: the theorem applied to a concrete three-line corpus
`.I 1 / .W / aa bb` (one document of raw length 2). -/
theorem C4_mean_normalized_length_one_witness :
    (['.', 'I', ' ', '1'] : Word).take 2 = labelID ∧
    0 < finalAverage (fun w => w) []
      [['.', 'I', ' ', '1'], ['.', 'W'], ['a', 'a', ' ', 'b', 'b']] ∧
    (normalizedLengths (fun w => w) []
        [['.', 'I', ' ', '1'], ['.', 'W'], ['a', 'a', ' ', 'b', 'b']]).sum /
      ((normalizedLengths (fun w => w) []
        [['.', 'I', ' ', '1'], ['.', 'W'], ['a', 'a', ' ', 'b', 'b']]).length : ℝ) = 1 := by
  have hlen : (buildState (fun w => w) []
      [['.', 'I', ' ', '1'], ['.', 'W'], ['a', 'a', ' ', 'b', 'b']]).length = 2 := rfl
  have havg : (buildState (fun w => w) []
      [['.', 'I', ' ', '1'], ['.', 'W'], ['a', 'a', ' ', 'b', 'b']]).average_length =
      0 + Real.sqrt ((0 : ℕ) : ℝ) := rfl
  have hnum : (buildState (fun w => w) []
      [['.', 'I', ' ', '1'], ['.', 'W'], ['a', 'a', ' ', 'b', 'b']]).num_of_documents = 1 := rfl
  have hpos : 0 < finalAverage (fun w => w) []
      [['.', 'I', ' ', '1'], ['.', 'W'], ['a', 'a', ' ', 'b', 'b']] := by
    simp only [finalAverage, hlen, havg, hnum]
    simp [Real.sqrt_zero, Real.sqrt_pos]
  exact ⟨by decide, hpos,
    (C4_mean_normalized_length_one (fun w => w) [] ['.', 'I', ' ', '1']
      [['.', 'W'], ['a', 'a', ' ', 'b', 'b']] (by decide) hpos).1⟩

theorem lowerChar_fix {c : Char} (h : c ∉ upperChars) : lowerChar c = c := by
  unfold lowerChar
  simp_all [upperChars]

theorem lowerChar_pred (p : Char → Bool) (hp : ∀ u ∈ upperChars, p (lowerChar u) = p u)
    (c : Char) : p (lowerChar c) = p c := by
  by_cases h : c ∈ upperChars
  · exact hp c h
  · rw [lowerChar_fix h]

theorem lowerChar_isPyWs (c : Char) : isPyWs (lowerChar c) = isPyWs c :=
  lowerChar_pred isPyWs (by decide) c

theorem lowerChar_mem_punct (c : Char) :
    lowerChar c ∈ punctuationRemoved ↔ c ∈ punctuationRemoved :=
  decide_eq_decide.mp
    (lowerChar_pred (fun x => decide (x ∈ punctuationRemoved)) (by decide) c)

theorem lowerChar_ne_dot (c : Char) : (lowerChar c != '.') = (c != '.') :=
  lowerChar_pred (fun x => x != '.') (by decide) c

theorem lowerChar_eq_dash (c : Char) : lowerChar c = '-' ↔ c = '-' := by
  have h := lowerChar_pred (fun x => x == '-') (by decide) c
  constructor <;> intro hx
  · have : (c == '-') = true := by rw [← h, hx]; rfl
    exact beq_iff_eq.mp this
  · subst hx
    decide

theorem lowerChar_idem (c : Char) : lowerChar (lowerChar c) = lowerChar c := by
  by_cases h : c ∈ upperChars
  · exact (by decide : ∀ u ∈ upperChars, lowerChar (lowerChar u) = lowerChar u) c h
  · rw [lowerChar_fix h, lowerChar_fix h]

theorem pyLower_idem (l : Word) : pyLower (pyLower l) = pyLower l := by
  rw [pyLower, pyLower, List.map_map]
  exact List.map_congr_left (fun c _ => lowerChar_idem c)

theorem pyTranslate_pyLower (l : Word) :
    pyTranslate (pyLower l) = pyLower (pyTranslate l) := by
  rw [pyTranslate, pyLower, pyTranslate, pyLower, List.map_map, List.map_map]
  apply List.map_congr_left
  intro c _
  simp only [Function.comp_apply]
  by_cases h : c ∈ punctuationRemoved
  · rw [if_pos ((lowerChar_mem_punct c).mpr h), if_pos h]
    decide
  · rw [if_neg (fun hx => h ((lowerChar_mem_punct c).mp hx)), if_neg h]

theorem replaceDD_pyLower : ∀ l : Word, replaceDD (pyLower l) = pyLower (replaceDD l)
  | [] => rfl
  | [c] => rfl
  | c₁ :: c₂ :: t => by
    by_cases h : c₁ = '-' ∧ c₂ = '-'
    · obtain ⟨h1, h2⟩ := h
      subst h1
      subst h2
      show replaceDD (lowerChar '-' :: lowerChar '-' :: pyLower t) = _
      have hd : lowerChar '-' = '-' := by decide
      rw [hd, replaceDD, replaceDD, if_pos ⟨rfl, rfl⟩, if_pos ⟨rfl, rfl⟩]
      show ' ' :: replaceDD (pyLower t) = lowerChar ' ' :: pyLower (replaceDD t)
      rw [replaceDD_pyLower t]
      rfl
    · show replaceDD (lowerChar c₁ :: lowerChar c₂ :: pyLower t) = _
      have h' : ¬(lowerChar c₁ = '-' ∧ lowerChar c₂ = '-') := by
        intro hx
        exact h ⟨(lowerChar_eq_dash c₁).mp hx.1, (lowerChar_eq_dash c₂).mp hx.2⟩
      rw [replaceDD, replaceDD, if_neg h', if_neg h]
      show lowerChar c₁ :: replaceDD (pyLower (c₂ :: t)) = _
      rw [replaceDD_pyLower (c₂ :: t)]
      rfl

theorem splitSepAux_pyLower (p : Char → Bool) (hp : ∀ c, p (lowerChar c) = p c) :
    ∀ l : Word, splitSepAux p (pyLower l) =
      (pyLower (splitSepAux p l).1, (splitSepAux p l).2.map pyLower)
  | [] => rfl
  | c :: t => by
    show splitSepAux p (lowerChar c :: pyLower t) = _
    rw [splitSepAux, splitSepAux, splitSepAux_pyLower p hp t, hp c]
    by_cases hc : p c
    · simp [hc, pyLower]
    · simp [hc, pyLower]

theorem pySplitWs_pyLower (l : Word) :
    pySplitWs (pyLower l) = (pySplitWs l).map pyLower := by
  rw [pySplitWs, pySplitWs, splitSepAux_pyLower isPyWs lowerChar_isPyWs l]
  show (pyLower _ :: List.map pyLower _).filter _ = _
  rw [← List.map_cons, List.filter_map]
  congr 1
  apply List.filter_congr
  intro w _
  show (!(pyLower w).isEmpty) = (!w.isEmpty)
  cases w <;> rfl

theorem removeDots_pyLower (l : Word) :
    removeDots (pyLower l) = pyLower (removeDots l) := by
  rw [removeDots, pyLower, removeDots, pyLower, List.filter_map]
  congr 1
  apply List.filter_congr
  intro c _
  exact lowerChar_ne_dot c

theorem pyStrip_pyLower (l : Word) : pyStrip (pyLower l) = pyLower (pyStrip l) := by
  have hcomp : (isPyWs ∘ lowerChar) = isPyWs := funext lowerChar_isPyWs
  rw [pyStrip, pyStrip, pyLower]
  rw [List.dropWhile_map, hcomp, ← List.map_reverse, List.dropWhile_map, hcomp,
    ← List.map_reverse]
  rfl

theorem queryToken_term_lower (tok : Word) :
    pyLower (removeDots (pyLower tok)) = pyLower (removeDots tok) := by
  rw [removeDots_pyLower, pyLower_idem]

theorem processQueryToken_pyLower (stem : Word → Word) (stop : List Word)
    (qt : List Word) (tok : Word) :
    processQueryToken stem stop qt (pyLower tok) = processQueryToken stem stop qt tok := by
  rw [processQueryToken, processQueryToken, queryToken_term_lower]

theorem process_single_query_pyLower (stem : Word → Word) (stop : List Word) (q : Word) :
    process_single_query stem stop (pyLower q) = process_single_query stem stop q := by
  simp only [process_single_query]
  rw [pyStrip_pyLower, pyTranslate_pyLower, replaceDD_pyLower, pySplitWs_pyLower,
    List.foldl_map]
  congr 1
  funext qt tok
  exact processQueryToken_pyLower stem stop qt tok

/-- C10: query-side normalization is case-insensitive while document-side
normalization is not.  `process_single_query` returns exactly the same stem
sequence for a query string and for its lower-cased form, for every stemmer
and stop-word list — each raw query token is lower-cased (after full-stop
removal) before the validity filter and stemming are applied, and the
surrounding punctuation/whitespace handling commutes with lower-casing.  No
such lower-casing step exists in the document pipeline: a corpus whose body
word is "A" and one whose body word is "a" yield different inverted
indexes. -/
theorem C10_query_lowercase_invariance :
    (∀ (stem : Word → Word) (stop : List Word) (q : Word),
      process_single_query stem stop (pyLower q) = process_single_query stem stop q) ∧
    (process_documents (fun w => w) [] [['.', 'I'], ['.', 'W'], ['A']]).2.1 ≠
      (process_documents (fun w => w) [] [['.', 'I'], ['.', 'W'], ['a']]).2.1 :=
  ⟨process_single_query_pyLower, by decide⟩
